import Mathlib

/-!
# celestia-node, package execute

A shallow embedding of the ingestion loop Application.subscribeBlocks
(execute/application.go) and of the block validator exercised by
execute/validation_test.go.

Part I embeds subscribeBlocks.  The collaborators (header subscription, share
service, message parser, multiblock codec) and the context are oracles held in
an environment; the loop is run with a bound on the number of iterations.
-/

namespace Execute

/-! ## Part I: the ingestion loop -/

/-- A Go error value; two errors are the same value when their text agrees. -/
structure GoError where
  msg : String
deriving DecidableEq, Repr

abbrev Bytes := List Nat

/-- The data-availability root carried by a header (head.DAH). -/
abbrev Root := Bytes

/-- The namespace identifier (namespace.ID). -/
abbrev NamespaceID := Bytes

/-- A raw share (share.Share). -/
abbrev Share := Bytes

/-- The extended header delivered by the subscription; only DAH is read. -/
structure ExtendedHeader where
  Height : Nat
  DAH : Root
deriving DecidableEq, Repr

/-- One parsed message (types.Message): namespace and payload. -/
structure Message where
  NamespaceID : NamespaceID
  Data : Bytes
deriving DecidableEq, Repr

/-- The result of types.ParseMsgs. -/
structure Messages where
  MessagesList : List Message
deriving DecidableEq, Repr

/-- The wire form metroproto.MultiBlock produced by Unmarshal. -/
structure ProtoMultiBlock where
  Blocks : List Bytes
deriving DecidableEq, Repr

/-- The container metro.MultiBlock: an ordered sequence of sub-blocks. The type
is declared outside the repository; its shape follows the data model of the
specification (an ordered sequence of block-like sub-units). -/
structure MultiBlock where
  Blocks : List Bytes
deriving DecidableEq, Repr

/-- The surroundings of one call of subscribeBlocks: the receiver fields it
reads and the behaviour of every collaborator it calls.  Calls that reach the
network are indexed by the loop iteration that makes them, so that their
answers may change from one call to the next. -/
structure Env where
  /-- The field app.namespace. -/
  namespaceID : NamespaceID
  /-- The outcome of app.hs.Subscribe(). -/
  Subscribe : Except GoError Unit
  /-- Whether ctx.Done() is ready when the select of iteration i runs. -/
  ctxDone : Nat → Bool
  /-- The outcome of sub.NextHeader(ctx) in iteration i. -/
  NextHeader : Nat → Except GoError ExtendedHeader
  /-- The outcome of app.ss.GetSharesByNamespace(ctx, root, ns) in iteration i. -/
  GetSharesByNamespace : Nat → Root → NamespaceID → Except GoError (List Share)
  /-- The function types.ParseMsgs. -/
  ParseMsgs : List Share → Except GoError Messages
  /-- The method protoMB.Unmarshal applied to a fresh value. -/
  Unmarshal : Bytes → Except GoError ProtoMultiBlock
  /-- The function metro.MultiBlockFromProto. -/
  MultiBlockFromProto : ProtoMultiBlock → Except GoError MultiBlock

/-- How far a call has got: still inside the loop, or returned with the given
error (none is the nil error). -/
inductive Status where
  | running
  | returned (err : Option GoError)
deriving DecidableEq, Repr

/-- What the loop has done so far: the items sent on blockPipe, in order, and
the number of calls made to NextHeader and to GetSharesByNamespace. Every send
is taken to complete (the consumer keeps receiving). -/
structure LoopState where
  sent : List MultiBlock
  nextHeaderCalls : Nat
  getSharesCalls : Nat
deriving DecidableEq, Repr

/-- The observable outcome of a call of subscribeBlocks. -/
structure Run where
  sent : List MultiBlock
  closed : Bool
  nextHeaderCalls : Nat
  getSharesCalls : Nat
  status : Status
deriving DecidableEq, Repr

/-- The state before the first iteration. -/
def LoopState.init : LoopState :=
  { sent := [], nextHeaderCalls := 0, getSharesCalls := 0 }

/-- The inner loop over msgs.MessagesList (application.go lines 64-77): each
payload is unmarshalled, converted, and the resulting multiblock is sent as one
item; the first failure stops the loop and is handed back. -/
def rangeMessages (env : Env) : List Message → LoopState → LoopState × Option GoError
  | [], st => (st, none)
  | msg :: rest, st =>
    match env.Unmarshal msg.Data with
    | .error err => (st, some err)
    | .ok protoMB =>
      match env.MultiBlockFromProto protoMB with
      | .error err => (st, some err)
      | .ok mBlock => rangeMessages env rest { st with sent := st.sent ++ [mBlock] }

/-- The for/select loop (application.go lines 43-79), run for at most the given
number of iterations starting at iteration i. -/
def forLoop (env : Env) : Nat → Nat → LoopState → LoopState × Status
  | 0, _, st => (st, .running)
  | fuel + 1, i, st =>
    if env.ctxDone i then (st, .returned none)
    else
      let st1 := { st with nextHeaderCalls := st.nextHeaderCalls + 1 }
      match env.NextHeader i with
      | .error err => (st1, .returned (some err))
      | .ok head =>
        let st2 := { st1 with getSharesCalls := st1.getSharesCalls + 1 }
        match env.GetSharesByNamespace i head.DAH env.namespaceID with
        | .error err => (st2, .returned (some err))
        | .ok rawShares =>
          match env.ParseMsgs rawShares with
          | .error err => (st2, .returned (some err))
          | .ok msgs =>
            match rangeMessages env msgs.MessagesList st2 with
            | (st3, some err) => (st3, .returned (some err))
            | (st3, none) => forLoop env fuel (i + 1) st3

/-- The body of subscribeBlocks below the deferred close: subscribe, then loop. -/
def subscribeBody (env : Env) (fuel : Nat) : LoopState × Status :=
  match env.Subscribe with
  | .error err => (LoopState.init, .returned (some err))
  | .ok () => forLoop env fuel 0 LoopState.init

/-- The method Application.subscribeBlocks (application.go lines 34-80). The
deferred close(blockPipe) runs exactly when the function returns. -/
def subscribeBlocks (env : Env) (fuel : Nat) : Run :=
  let r := subscribeBody env fuel
  { sent := r.1.sent
    closed := decide (r.2 ≠ .running)
    nextHeaderCalls := r.1.nextHeaderCalls
    getSharesCalls := r.1.getSharesCalls
    status := r.2 }

/-- The decoding of one message payload (application.go lines 65-74). -/
def decodeMsg (env : Env) (msg : Message) : Except GoError MultiBlock :=
  match env.Unmarshal msg.Data with
  | .error err => .error err
  | .ok protoMB => env.MultiBlockFromProto protoMB

/-- Iteration i runs to its end and its messages decode, in message-list
order, to the multiblocks mbs. -/
def IterOK (env : Env) (i : Nat) (mbs : List MultiBlock) : Prop :=
  env.ctxDone i = false ∧
  ∃ head rawShares msgs,
    env.NextHeader i = .ok head ∧
    env.GetSharesByNamespace i head.DAH env.namespaceID = .ok rawShares ∧
    env.ParseMsgs rawShares = .ok msgs ∧
    List.Forall₂ (fun msg mb => decodeMsg env msg = .ok mb) msgs.MessagesList mbs

/-- The stream the specification asks for after n headers: the decoded
messages of each header, headers in subscription order. -/
def expectedStream (blocks : Nat → List MultiBlock) (n : Nat) : List MultiBlock :=
  (List.range n).flatMap blocks

/-- The default branch of the select in iteration i (application.go lines
48-77) on its own: the state after it and the error that ends the loop, if
any. The loop is this branch repeated behind the cancellation check. -/
def loopBody (env : Env) (i : Nat) (st : LoopState) : LoopState × Option GoError :=
  let st1 := { st with nextHeaderCalls := st.nextHeaderCalls + 1 }
  match env.NextHeader i with
  | .error err => (st1, some err)
  | .ok head =>
    let st2 := { st1 with getSharesCalls := st1.getSharesCalls + 1 }
    match env.GetSharesByNamespace i head.DAH env.namespaceID with
    | .error err => (st2, some err)
    | .ok rawShares =>
      match env.ParseMsgs rawShares with
      | .error err => (st2, some err)
      | .ok msgs => rangeMessages env msgs.MessagesList st2

/-- The first call of iteration k that fails returns err: NextHeader fails with
err; or the header arrives and GetSharesByNamespace fails with err for its
root; or the shares arrive and ParseMsgs fails with err on them; or the
messages parse, every message before some message msg decodes, and Unmarshal
fails with err on the payload of msg or MultiBlockFromProto fails with err on
what Unmarshal gave for it. -/
def FailsAt (env : Env) (k : Nat) (err : GoError) : Prop :=
  env.NextHeader k = .error err ∨
  ∃ head, env.NextHeader k = .ok head ∧
    (env.GetSharesByNamespace k head.DAH env.namespaceID = .error err ∨
    ∃ rawShares, env.GetSharesByNamespace k head.DAH env.namespaceID = .ok rawShares ∧
      (env.ParseMsgs rawShares = .error err ∨
      ∃ msgs, env.ParseMsgs rawShares = .ok msgs ∧
        ∃ before msg after, msgs.MessagesList = before ++ msg :: after ∧
          (∀ m ∈ before, ∃ mb, decodeMsg env m = .ok mb) ∧
          (env.Unmarshal msg.Data = .error err ∨
          ∃ protoMB, env.Unmarshal msg.Data = .ok protoMB ∧
            env.MultiBlockFromProto protoMB = .error err)))

/-! ### Sample environments -/

/-- The error a failing share fetch reports in the samples. -/
def errFetch : GoError := ⟨"share fetch failed"⟩

/-- The error shared by the failing stages of the four samples below. -/
def errShared : GoError := ⟨"unexpected EOF"⟩

/-- A feed that never fails: header i carries the root [i], the share service
hands the root back as the single share, every share becomes one message and
every payload decodes to a multiblock with one sub-block. -/
def steadyEnv : Env :=
  { namespaceID := [7]
    Subscribe := .ok ()
    ctxDone := fun _ => false
    NextHeader := fun i => .ok { Height := i + 1, DAH := [i] }
    GetSharesByNamespace := fun _ root _ => .ok [root]
    ParseMsgs := fun shares => .ok { MessagesList := shares.map (fun sh => ⟨[7], sh⟩) }
    Unmarshal := fun data => .ok { Blocks := [data] }
    MultiBlockFromProto := fun protoMB => .ok { Blocks := protoMB.Blocks } }

/-- The multiblocks header i of steadyEnv decodes to. -/
def steadyBlocks (i : Nat) : List MultiBlock := [{ Blocks := [[i]] }]

/-- The steady feed, except that the share fetch of the third header fails. -/
def fetchFailEnv : Env :=
  { steadyEnv with
    GetSharesByNamespace := fun i root _ => if i = 2 then .error errFetch else .ok [root] }

/-- The steady feed, with the context cancelled when the third iteration starts. -/
def cancelEnv : Env :=
  { steadyEnv with ctxDone := fun i => decide (2 ≤ i) }

/-- A context that is cancelled from the start together with a subscription
that fails. -/
def cancelledSubscribeFailEnv : Env :=
  { steadyEnv with ctxDone := fun _ => true, Subscribe := .error errShared }

/-- A feed whose only message decodes to a multiblock with two sub-blocks; the
context is cancelled after the first header. -/
def pairEnv : Env :=
  { steadyEnv with
    ctxDone := fun i => decide (1 ≤ i)
    Unmarshal := fun data => .ok { Blocks := [data, data] } }

/-- The steady feed with a failing subscription. -/
def subscribeFailEnv : Env :=
  { steadyEnv with Subscribe := .error errShared }

/-- The steady feed with a share fetch that fails with the same error value. -/
def shareFailEnv : Env :=
  { steadyEnv with GetSharesByNamespace := fun _ _ _ => .error errShared }

/-- The steady feed with a message parser that fails with the same error value. -/
def parseFailEnv : Env :=
  { steadyEnv with ParseMsgs := fun _ => .error errShared }

/-- The steady feed with an unmarshaller that fails with the same error value. -/
def decodeFailEnv : Env :=
  { steadyEnv with Unmarshal := fun _ => .error errShared }

/-! ## Part II: the block validator

The validator itself (BlockExecutor.ValidateBlock) and the helpers of its tests
are not among the sources; they are modelled from the specification, sections
3, 4.2, 4.3 and 7, and from the way validation_test.go calls them. -/

/-- The consensus version of a header or state: block protocol and application. -/
structure Consensus where
  Block : Nat
  App : Nat
deriving DecidableEq, Repr

structure PartSetHeader where
  Total : Nat
  Hash : Bytes
deriving DecidableEq, Repr

structure BlockID where
  Hash : Bytes
  PartSetHeader : PartSetHeader
deriving DecidableEq, Repr

/-- One signature of a commit: validator address, timestamp and signature. -/
structure CommitSig where
  ValidatorAddress : Bytes
  Timestamp : Int
  Signature : Bytes
deriving DecidableEq, Repr

/-- Modelled from the spec: the Commit of section 3, the quorum certificate for
the previous block (the type is declared outside the sources). -/
structure Commit where
  Height : Int
  Round : Int
  BlockID : BlockID
  Signatures : List CommitSig
deriving DecidableEq, Repr

/-- Modelled from the spec: the Header of section 3 (the type is declared
outside the sources). -/
structure Header where
  Version : Consensus
  ChainID : String
  Height : Int
  Time : Int
  LastBlockID : BlockID
  LastCommitHash : Bytes
  DataHash : Bytes
  ValidatorsHash : Bytes
  NextValidatorsHash : Bytes
  ConsensusHash : Bytes
  AppHash : Bytes
  LastResultsHash : Bytes
  EvidenceHash : Bytes
  ProposerAddress : Bytes
deriving DecidableEq, Repr

/-- Modelled from the spec: the Block of section 3: header, transactions,
evidence and the commit of the previous block. -/
structure Block where
  Header : Header
  Data : List Bytes
  Evidence : List Bytes
  LastCommit : Commit
deriving DecidableEq, Repr

structure Validator where
  Address : Bytes
  VotingPower : Int
deriving DecidableEq, Repr

/-- Modelled from the spec: a validator set together with the slot of the
proposer expected for the next block (rule 9 of section 4.2). -/
structure ValidatorSet where
  Validators : List Validator
  Proposer : Nat
deriving DecidableEq, Repr

def ValidatorSet.Size (vals : ValidatorSet) : Nat := vals.Validators.length

def ValidatorSet.GetProposer (vals : ValidatorSet) : Option Validator :=
  vals.Validators.get? vals.Proposer

/-- Modelled from the spec: the State of section 3 (the type is declared
outside the sources). The time and the round of the last block are kept as
well: rules 4 and 10 of section 4.2 compare the candidate against the time of
the previous block and against the round of the immediately preceding block. -/
structure State where
  ChainID : String
  Version : Consensus
  InitialHeight : Int
  LastBlockHeight : Int
  LastBlockID : BlockID
  LastBlockTime : Int
  LastBlockRound : Int
  Validators : ValidatorSet
  NextValidators : ValidatorSet
  LastValidators : ValidatorSet
  ConsensusHash : Bytes
  AppHash : Bytes
  LastResultsHash : Bytes
deriving DecidableEq, Repr

/-- The hashing and signing collaborators, outside the core. -/
structure Hasher where
  commitHash : Commit → Bytes
  evidenceHash : List Bytes → Bytes
  dataHash : List Bytes → Bytes
  validatorsHash : ValidatorSet → Bytes
  blockID : Block → BlockID
  sign : Validator → BlockID → Bytes

/-- The header fields whose disagreement is a FieldMismatchError. -/
inductive HeaderField where
  | Version | ChainID | Time | LastBlockID | LastCommitHash | ValidatorsHash
  | NextValidatorsHash | ConsensusHash | AppHash | LastResultsHash | EvidenceHash
deriving DecidableEq, Repr

/-- Modelled from the spec: the validation error kinds of section 7, which the
missing validator returns. HeightError has its two causes apart, since the
height below the initial height must be distinguishable; the two commit errors
carry the names the tests assert on. -/
inductive ValidationError where
  | HeightBelowInitial (height initial : Int)
  | HeightMismatch (expected actual : Int)
  | FieldMismatchError (field : HeaderField)
  | ProposerError
  | ErrInvalidCommitHeight (Expected Actual : Int)
  | ErrInvalidCommitSignatures (Expected Actual : Nat)
deriving DecidableEq, Repr

/-- Modelled from the spec: the text of a validation error (err.Error() in the
tests); the text for a height below the initial height is the one the test
looks for. -/
def ValidationError.Error : ValidationError → String
  | .HeightBelowInitial height initial =>
    "block height " ++ toString height ++ " lower than initial height " ++ toString initial
  | .HeightMismatch expected actual =>
    "wrong Block.Header.Height. Expected " ++ toString expected ++ ", got " ++ toString actual
  | .FieldMismatchError field => "wrong Block.Header." ++ reprStr field
  | .ProposerError => "block.Header.ProposerAddress is not the expected proposer"
  | .ErrInvalidCommitHeight Expected Actual =>
    "invalid commit -- wrong height: " ++ toString Expected ++ " vs " ++ toString Actual
  | .ErrInvalidCommitSignatures Expected Actual =>
    "invalid commit -- wrong set size: " ++ toString Expected ++ " vs " ++ toString Actual

/-- The text t occurs inside the text s (assert.Contains on strings). -/
def Contains (s t : String) : Prop := t.toList <:+: s.toList

/-- Modelled from the spec: the fixed byte length of a well-formed address
(rule 9 of section 4.2); key addresses are 20 bytes long. -/
def AddressSize : Nat := 20

/-- The first violated check of a list of checks decides the error. -/
def firstViolation : List (Bool × ValidationError) → Option ValidationError
  | [] => none
  | (violated, err) :: rest => if violated then some err else firstViolation rest

/-- Modelled from the spec: rules 1 to 9 of section 4.2 of the missing
ValidateBlock, each as the condition under which it is violated, in the order
of the specification. -/
def headerChecks (hs : Hasher) (state : State) (block : Block) :
    List (Bool × ValidationError) :=
  [ (decide (block.Header.Height < state.InitialHeight),
      .HeightBelowInitial block.Header.Height state.InitialHeight),
    (decide (block.Header.Height ≠ state.LastBlockHeight + 1),
      .HeightMismatch (state.LastBlockHeight + 1) block.Header.Height),
    (decide (block.Header.Version ≠ state.Version), .FieldMismatchError .Version),
    (decide (block.Header.ChainID ≠ state.ChainID), .FieldMismatchError .ChainID),
    (decide (block.Header.Time < state.LastBlockTime), .FieldMismatchError .Time),
    (decide (block.Header.LastBlockID ≠ state.LastBlockID), .FieldMismatchError .LastBlockID),
    (decide (block.Header.LastCommitHash ≠ hs.commitHash block.LastCommit),
      .FieldMismatchError .LastCommitHash),
    (decide (block.Header.ValidatorsHash ≠ hs.validatorsHash state.Validators),
      .FieldMismatchError .ValidatorsHash),
    (decide (block.Header.NextValidatorsHash ≠ hs.validatorsHash state.NextValidators),
      .FieldMismatchError .NextValidatorsHash),
    (decide (block.Header.ConsensusHash ≠ state.ConsensusHash),
      .FieldMismatchError .ConsensusHash),
    (decide (block.Header.AppHash ≠ state.AppHash), .FieldMismatchError .AppHash),
    (decide (block.Header.LastResultsHash ≠ state.LastResultsHash),
      .FieldMismatchError .LastResultsHash),
    (decide (block.Header.EvidenceHash ≠ hs.evidenceHash block.Evidence),
      .FieldMismatchError .EvidenceHash),
    (decide (block.Header.ProposerAddress.length ≠ AddressSize), .ProposerError),
    (decide (state.Validators.GetProposer.map (fun v => v.Address) ≠
        some block.Header.ProposerAddress), .ProposerError) ]

/-- Modelled from the spec: rule 10 of section 4.2 of the missing ValidateBlock.
Height 1 has no prior commit; otherwise the height and round of the last commit
must be those of the immediately preceding block, and the number of signatures
must be the size of the last validator set. -/
def commitChecks (state : State) (block : Block) : List (Bool × ValidationError) :=
  if block.Header.Height = 1 then []
  else
    [ (decide (block.LastCommit.Height ≠ block.Header.Height - 1 ∨
          block.LastCommit.Round ≠ state.LastBlockRound),
        .ErrInvalidCommitHeight (block.Header.Height - 1) block.LastCommit.Height),
      (decide (block.LastCommit.Signatures.length ≠ state.LastValidators.Size),
        .ErrInvalidCommitSignatures state.LastValidators.Size
          block.LastCommit.Signatures.length) ]

/-- Modelled from the spec: the missing BlockExecutor.ValidateBlock, section
4.2: the checks are evaluated in order and the first violated one determines
the error; none stands for the nil error. -/
def ValidateBlock (hs : Hasher) (state : State) (block : Block) : Option ValidationError :=
  firstViolation (headerChecks hs state block ++ commitChecks state block)

/-- Modelled from the spec: what the external application and the consensus
engine hand back for a delivered block (section 4.3): application hash, results hash, the validator set after the
updates of the block, and the round in which the block was decided. -/
structure Response where
  AppHash : Bytes
  ResultsHash : Bytes
  NextValidators : ValidatorSet
  Round : Int
deriving DecidableEq, Repr

/-- Modelled from the spec: the next state computed by the missing applyBlock,
section 4.3: the height and the block ID advance, the validator sets rotate,
the application hashes are replaced. -/
def updateState (state : State) (blockID : BlockID) (block : Block) (resp : Response) :
    State :=
  { state with
    LastBlockHeight := block.Header.Height
    LastBlockID := blockID
    LastBlockTime := block.Header.Time
    LastBlockRound := resp.Round
    LastValidators := state.Validators
    Validators := state.NextValidators
    NextValidators := resp.NextValidators
    AppHash := resp.AppHash
    LastResultsHash := resp.ResultsHash }

/-- Modelled from the spec: the missing BlockExecutor.ApplyBlock, section 4.3,
as a step on the state the executor owns: a block that fails validation leaves
the state as it was and reports the error; a valid block moves to the next
state. -/
def ApplyBlock (hs : Hasher) (state : State) (block : Block) (resp : Response) :
    State × Option ValidationError :=
  match ValidateBlock hs state block with
  | some err => (state, some err)
  | none => (updateState state (hs.blockID block) block resp, none)

/-- The address of the proposer the state expects (s.Validators.GetProposer().Address). -/
def expectedProposer (state : State) : Bytes :=
  match state.Validators.GetProposer with
  | some v => v.Address
  | none => []

/-- Modelled from the spec: the missing State.MakeBlock, the derivation rules
of sections 3 and 4.2: every header field that rules 2 to 8 tie to the state,
to the last commit or to the evidence is derived from them, and the time is
the time of the previous block held by the state, the earliest time rule 4
admits. -/
def MakeBlock (hs : Hasher) (state : State) (height : Int) (data : List Bytes)
    (evidence : List Bytes) (lastCommit : Commit) (proposerAddress : Bytes) : Block :=
  { Header :=
      { Version := state.Version
        ChainID := state.ChainID
        Height := height
        Time := state.LastBlockTime
        LastBlockID := state.LastBlockID
        LastCommitHash := hs.commitHash lastCommit
        DataHash := hs.dataHash data
        ValidatorsHash := hs.validatorsHash state.Validators
        NextValidatorsHash := hs.validatorsHash state.NextValidators
        ConsensusHash := state.ConsensusHash
        AppHash := state.AppHash
        LastResultsHash := state.LastResultsHash
        EvidenceHash := hs.evidenceHash evidence
        ProposerAddress := proposerAddress }
    Data := data
    Evidence := evidence
    LastCommit := lastCommit }

/-- The constructor types.NewCommit. -/
def NewCommit (height round : Int) (blockID : BlockID) (sigs : List CommitSig) : Commit :=
  { Height := height, Round := round, BlockID := blockID, Signatures := sigs }

/-- Modelled from the spec: the missing test helper makeValidCommit, the commit
of a block: one signature of every validator of the set that decided it. -/
def makeValidCommit (hs : Hasher) (height round : Int) (blockID : BlockID)
    (vals : ValidatorSet) (time : Int) : Commit :=
  NewCommit height round blockID
    (vals.Validators.map fun v =>
      { ValidatorAddress := v.Address, Timestamp := time, Signature := hs.sign v blockID })

/-- The inputs from outside the core for one height of a good chain: the
transactions, and what the application and the consensus engine answer. -/
structure GoodBlockInput where
  data : List Bytes
  response : Response
deriving DecidableEq, Repr

/-- Modelled from the spec: the missing test helper makeAndCommitGoodBlock: the
state builds the block of the next height with the expected proposer and the
commit of the previous block, the block is applied, and the commit of the new
block is made. The result is the validation outcome, the state after the step
and the commit for the next height. -/
def makeAndCommitGoodBlock (hs : Hasher) (state : State) (lastCommit : Commit)
    (input : GoodBlockInput) : Option ValidationError × State × Commit :=
  let block := MakeBlock hs state (state.LastBlockHeight + 1) input.data [] lastCommit
    (expectedProposer state)
  match ApplyBlock hs state block input.response with
  | (st, some err) => (some err, st, lastCommit)
  | (st, none) =>
    (none, st, makeValidCommit hs block.Header.Height input.response.Round
      (hs.blockID block) state.Validators block.Header.Time)

/-- The good-block part of the loops of the tests: one good block per input,
applied strictly in order; the result lists, per height, the validation outcome
and the state after it, and stops at the first error. -/
def goodChain (hs : Hasher) : State → Commit → List GoodBlockInput →
    List (Option ValidationError × State)
  | _, _, [] => []
  | state, lastCommit, input :: rest =>
    match makeAndCommitGoodBlock hs state lastCommit input with
    | (some err, st, _) => [(some err, st)]
    | (none, st, commit) => (none, st) :: goodChain hs st commit rest

/-- The state and the commit a good chain ends with. -/
def goodChainEnd (hs : Hasher) : State → Commit → List GoodBlockInput → State × Commit
  | state, lastCommit, [] => (state, lastCommit)
  | state, lastCommit, input :: rest =>
    match makeAndCommitGoodBlock hs state lastCommit input with
    | (some _, st, commit) => (st, commit)
    | (none, st, commit) => goodChainEnd hs st commit rest

/-- A validator set whose proposer slot is filled by a validator with a
well-formed address. -/
def ValidatorSet.WellFormed (vals : ValidatorSet) : Prop :=
  ∃ v, vals.GetProposer = some v ∧ v.Address.length = AddressSize

/-- The shape of the state the tests start from (makeState(n, 1)): no block
yet, initial height 1, well-formed validator sets. -/
def IsGenesis (state : State) : Prop :=
  state.LastBlockHeight = 0 ∧ state.InitialHeight = 1 ∧
  state.Validators.WellFormed ∧ state.NextValidators.WellFormed

/-- The header malleations of TestValidateBlockHeader, each with the value it
writes into the field. -/
inductive Malleation where
  | VersionBlock (block : Nat)
  | VersionApp (app : Nat)
  | ChainID (chainID : String)
  | Height (height : Int)
  | Time (time : Int)
  | LastBlockID (id : BlockID)
  | LastCommitHash (hash : Bytes)
  | ValidatorsHash (hash : Bytes)
  | NextValidatorsHash (hash : Bytes)
  | ConsensusHash (hash : Bytes)
  | AppHash (hash : Bytes)
  | LastResultsHash (hash : Bytes)
  | EvidenceHash (hash : Bytes)
  | ProposerAddress (address : Bytes)
deriving DecidableEq, Repr

/-- The function malleateBlock of a test case: it overwrites one header field. -/
def Malleation.malleateBlock (m : Malleation) (block : Block) : Block :=
  let h := block.Header
  { block with
    Header :=
      match m with
      | .VersionBlock v => { h with Version := { h.Version with Block := v } }
      | .VersionApp v => { h with Version := { h.Version with App := v } }
      | .ChainID c => { h with ChainID := c }
      | .Height height => { h with Height := height }
      | .Time t => { h with Time := t }
      | .LastBlockID id => { h with LastBlockID := id }
      | .LastCommitHash x => { h with LastCommitHash := x }
      | .ValidatorsHash x => { h with ValidatorsHash := x }
      | .NextValidatorsHash x => { h with NextValidatorsHash := x }
      | .ConsensusHash x => { h with ConsensusHash := x }
      | .AppHash x => { h with AppHash := x }
      | .LastResultsHash x => { h with LastResultsHash := x }
      | .EvidenceHash x => { h with EvidenceHash := x }
      | .ProposerAddress a => { h with ProposerAddress := a } }

/-- The malleation changes the field it writes; the time is moved earlier. -/
def Malleation.Changes (m : Malleation) (block : Block) : Prop :=
  match m with
  | .VersionBlock v => v ≠ block.Header.Version.Block
  | .VersionApp v => v ≠ block.Header.Version.App
  | .ChainID c => c ≠ block.Header.ChainID
  | .Height height => height ≠ block.Header.Height
  | .Time t => t < block.Header.Time
  | .LastBlockID id => id ≠ block.Header.LastBlockID
  | .LastCommitHash x => x ≠ block.Header.LastCommitHash
  | .ValidatorsHash x => x ≠ block.Header.ValidatorsHash
  | .NextValidatorsHash x => x ≠ block.Header.NextValidatorsHash
  | .ConsensusHash x => x ≠ block.Header.ConsensusHash
  | .AppHash x => x ≠ block.Header.AppHash
  | .LastResultsHash x => x ≠ block.Header.LastResultsHash
  | .EvidenceHash x => x ≠ block.Header.EvidenceHash
  | .ProposerAddress a => a ≠ block.Header.ProposerAddress

/-- Rules 1 to 9 alone: the checks that do not look at the last commit. -/
def validateHeader (hs : Hasher) (state : State) (block : Block) : Option ValidationError :=
  firstViolation (headerChecks hs state block)

/-- What a good chain keeps true of the state and of the commit it carries to
the next height. -/
def ChainInv (state : State) (lastCommit : Commit) : Prop :=
  state.InitialHeight ≤ state.LastBlockHeight + 1 ∧
  state.Validators.WellFormed ∧ state.NextValidators.WellFormed ∧
  (state.LastBlockHeight ≠ 0 →
    lastCommit.Height = state.LastBlockHeight ∧
    lastCommit.Round = state.LastBlockRound ∧
    lastCommit.Signatures.length = state.LastValidators.Size)

/-- The heights h+1, h+2, ..., h+n. -/
def heightsFrom (h : Int) : Nat → List Int
  | 0 => []
  | n + 1 => (h + 1) :: heightsFrom (h + 1) n

/-! ### Sample chain data -/

/-- A toy stand-in for the hashing collaborators. -/
def sampleHasher : Hasher :=
  { commitHash := fun c => [c.Height.toNat, c.Round.toNat, c.Signatures.length]
    evidenceHash := fun ev => [ev.length]
    dataHash := fun d => [d.length]
    validatorsHash := fun vals => vals.Proposer :: vals.Validators.map (fun v => v.Address.sum)
    blockID := fun b =>
      { Hash := [b.Header.Height.toNat]
        PartSetHeader := { Total := 1, Hash := [b.Header.Time.toNat] } }
    sign := fun v _ => v.Address }

/-- A well-formed address made of one repeated byte. -/
def sampleAddress (n : Nat) : Bytes := List.replicate 20 n

def threeValidators : ValidatorSet :=
  { Validators := [⟨sampleAddress 1, 10⟩, ⟨sampleAddress 2, 10⟩, ⟨sampleAddress 3, 10⟩]
    Proposer := 0 }

def oneValidator : ValidatorSet :=
  { Validators := [⟨sampleAddress 1, 10⟩], Proposer := 0 }

/-- Modelled from the spec: the missing test helper makeState at height 1, the
state before the first block. -/
def makeState (vals : ValidatorSet) : State :=
  { ChainID := "execution_chain"
    Version := { Block := 11, App := 1 }
    InitialHeight := 1
    LastBlockHeight := 0
    LastBlockID := { Hash := [], PartSetHeader := { Total := 0, Hash := [] } }
    LastBlockTime := 100
    LastBlockRound := 0
    Validators := vals
    NextValidators := vals
    LastValidators := { Validators := [], Proposer := 0 }
    ConsensusHash := [9]
    AppHash := []
    LastResultsHash := [] }

/-- The commit the tests start from: types.NewCommit(0, 0, BlockID, nil). -/
def firstCommit : Commit :=
  NewCommit 0 0 { Hash := [], PartSetHeader := { Total := 0, Hash := [] } } []

/-- One good block, validators unchanged. -/
def sampleInput (vals : ValidatorSet) : GoodBlockInput :=
  { data := [[1]]
    response := { AppHash := [4], ResultsHash := [5], NextValidators := vals, Round := 0 } }

/-- The state after one good block with three validators, and the commit of
that block. -/
def stateThree : State × Commit :=
  goodChainEnd sampleHasher (makeState threeValidators) firstCommit [sampleInput threeValidators]

/-- The state after one good block with one validator, and the commit of that
block. -/
def stateOne : State × Commit :=
  goodChainEnd sampleHasher (makeState oneValidator) firstCommit [sampleInput oneValidator]

/-- The commit of TestValidateBlockCommit that carries height 2 where height 1
is due. -/
def wrongHeightCommit : Commit :=
  NewCommit 2 0 stateOne.1.LastBlockID
    [{ ValidatorAddress := sampleAddress 1, Timestamp := 106, Signature := [1] }]

/-- The commit of TestValidateBlockCommit with the right height and round and
two signatures for one validator. -/
def wrongSigsCommit : Commit :=
  NewCommit 1 0 stateOne.1.LastBlockID
    [{ ValidatorAddress := sampleAddress 1, Timestamp := 106, Signature := [1] },
     { ValidatorAddress := sampleAddress 8, Timestamp := 106, Signature := [8] }]


/-- The state after nine good blocks with three validators, and the commit of
block 9. -/
def stateNine : State × Commit :=
  goodChainEnd sampleHasher (makeState threeValidators) firstCommit
    (List.replicate 9 (sampleInput threeValidators))

/-- The block the state builds for height 10 (TestValidateBlockHeader, lines 90-96). -/
def blockTen : Block :=
  MakeBlock sampleHasher stateNine.1 10 [[10]] [] stateNine.2 (expectedProposer stateNine.1)

/-- The same state with the initial height moved past the block (line 97). -/
def stateAhead : State :=
  { stateNine.1 with InitialHeight := 11 }

/-! ## Lemmas on the ingestion loop -/

theorem rangeMessages_ok (env : Env) (msgs : List Message) (mbs : List MultiBlock)
    (st : LoopState)
    (h : List.Forall₂ (fun msg mb => decodeMsg env msg = .ok mb) msgs mbs) :
    rangeMessages env msgs st = ({ st with sent := st.sent ++ mbs }, none) := by
  induction h generalizing st with
  | nil => simp [rangeMessages]
  | @cons msg mb rest mbs hd _ ih =>
    unfold decodeMsg at hd
    unfold rangeMessages
    cases hu : env.Unmarshal msg.Data with
    | error err => simp [hu] at hd
    | ok protoMB =>
      simp only [hu] at hd
      simp only [hd]
      rw [ih]
      simp

theorem forLoop_iterOK (env : Env) (blocks : Nat → List MultiBlock) (fuel i : Nat)
    (st : LoopState) (h : IterOK env i (blocks i)) :
    forLoop env (fuel + 1) i st =
      forLoop env fuel (i + 1)
        { sent := st.sent ++ blocks i
          nextHeaderCalls := st.nextHeaderCalls + 1
          getSharesCalls := st.getSharesCalls + 1 } := by
  obtain ⟨hc, head, rawShares, msgs, hn, hg, hp, hd⟩ := h
  rw [forLoop]
  simp only [hc, hn, hg, hp, Bool.false_eq_true, if_false]
  rw [rangeMessages_ok env _ _ _ hd]

theorem forLoop_after (env : Env) (blocks : Nat → List MultiBlock) (n m i : Nat)
    (st : LoopState) (h : ∀ j, j < n → IterOK env (i + j) (blocks (i + j))) :
    forLoop env (n + m) i st =
      forLoop env m (i + n)
        { sent := st.sent ++ (List.range' i n).flatMap blocks
          nextHeaderCalls := st.nextHeaderCalls + n
          getSharesCalls := st.getSharesCalls + n } := by
  induction n generalizing i st with
  | zero => simp
  | succ n ih =>
    have h0 : IterOK env i (blocks i) := by simpa using h 0 (Nat.succ_pos n)
    have hs : ∀ j, j < n → IterOK env (i + 1 + j) (blocks (i + 1 + j)) := by
      intro j hj
      have := h (j + 1) (Nat.succ_lt_succ hj)
      simpa [Nat.add_assoc, Nat.add_comm 1 j] using this
    rw [show n + 1 + m = (n + m) + 1 by omega, forLoop_iterOK env blocks _ _ _ h0,
      ih (i + 1) _ hs]
    simp [List.range', Nat.add_assoc, Nat.add_comm 1 n]

theorem subscribeBody_after (env : Env) (blocks : Nat → List MultiBlock) (n m : Nat)
    (hsub : env.Subscribe = .ok ()) (h : ∀ i, i < n → IterOK env i (blocks i)) :
    subscribeBody env (n + m) =
      forLoop env m n
        { sent := expectedStream blocks n, nextHeaderCalls := n, getSharesCalls := n } := by
  unfold subscribeBody
  simp only [hsub]
  have := forLoop_after env blocks n m 0 LoopState.init (by simpa using h)
  simpa [LoopState.init, expectedStream, List.range_eq_range'] using this

theorem rangeMessages_sent_extends (env : Env) (msgs : List Message) (st : LoopState) :
    st.sent <+: (rangeMessages env msgs st).1.sent ∧
    (rangeMessages env msgs st).1.nextHeaderCalls = st.nextHeaderCalls ∧
    (rangeMessages env msgs st).1.getSharesCalls = st.getSharesCalls := by
  induction msgs generalizing st with
  | nil => simp [rangeMessages]
  | cons msg rest ih =>
    unfold rangeMessages
    cases hu : env.Unmarshal msg.Data with
    | error err => simp
    | ok protoMB =>
      cases hm : env.MultiBlockFromProto protoMB with
      | error err => simp [hm]
      | ok mBlock =>
        simp only [hm]
        obtain ⟨h1, h2, h3⟩ := ih { st with sent := st.sent ++ [mBlock] }
        exact ⟨(List.prefix_append _ _).trans h1, h2, h3⟩

theorem forLoop_sent_extends (env : Env) (fuel i : Nat) (st : LoopState) :
    st.sent <+: (forLoop env fuel i st).1.sent := by
  induction fuel generalizing i st with
  | zero => simp [forLoop]
  | succ fuel ih =>
    rw [forLoop]
    split
    · simp
    · simp only
      split
      · simp
      · split
        · simp
        · split
          · simp
          · rename_i msgs _
            split
            · rename_i st3 err hr
              have := (rangeMessages_sent_extends env msgs.MessagesList
                { sent := st.sent, nextHeaderCalls := st.nextHeaderCalls + 1,
                  getSharesCalls := st.getSharesCalls + 1 }).1
              rw [hr] at this
              simpa using this
            · rename_i st3 hr
              have := (rangeMessages_sent_extends env msgs.MessagesList
                { sent := st.sent, nextHeaderCalls := st.nextHeaderCalls + 1,
                  getSharesCalls := st.getSharesCalls + 1 }).1
              rw [hr] at this
              exact List.IsPrefix.trans (by simpa using this) (ih (i + 1) st3)

/-- Running on after a bounded run that is still inside the loop: the longer
run continues from the state the shorter one reached; a run that has returned
is not changed by more iterations. -/
theorem forLoop_add (env : Env) (n m i : Nat) (st : LoopState) :
    forLoop env (n + m) i st =
      if (forLoop env n i st).2 = .running then forLoop env m (i + n) (forLoop env n i st).1
      else forLoop env n i st := by
  induction n generalizing i st with
  | zero => simp [forLoop]
  | succ n ih =>
    rw [show n + 1 + m = (n + m) + 1 by omega, forLoop, forLoop]
    split
    · simp
    · simp only
      split
      · simp
      · split
        · simp
        · split
          · simp
          · split
            · simp
            · rename_i st3 hr
              rw [ih (i + 1) st3]
              simp [Nat.add_assoc, Nat.add_comm 1 n]

theorem forLoop_running_calls (env : Env) (n i : Nat) (st : LoopState)
    (h : (forLoop env n i st).2 = .running) :
    (forLoop env n i st).1.nextHeaderCalls = st.nextHeaderCalls + n ∧
    (forLoop env n i st).1.getSharesCalls = st.getSharesCalls + n := by
  induction n generalizing i st with
  | zero => simp [forLoop]
  | succ n ih =>
    rw [forLoop] at h ⊢
    split at h
    · simp at h
    · rename_i hctx
      simp only at h
      split at h
      · simp at h
      · rename_i head hn
        split at h
        · simp at h
        · rename_i rawShares hg
          split at h
          · simp at h
          · rename_i msgs hp
            split at h
            · simp at h
            · rename_i st3 hr
              have hc := (rangeMessages_sent_extends env msgs.MessagesList
                { sent := st.sent, nextHeaderCalls := st.nextHeaderCalls + 1,
                  getSharesCalls := st.getSharesCalls + 1 }).2
              rw [hr] at hc
              simp only at hc
              obtain ⟨h1, h2⟩ := ih (i + 1) st3 h
              simp only [hctx, hn, hg, hp, hr, Bool.false_eq_true, if_false]
              rw [h1, h2, hc.1, hc.2]
              omega

theorem steadyEnv_iterOK (env : Env) (i : Nat)
    (hc : env.ctxDone i = false)
    (hn : env.NextHeader i = .ok { Height := i + 1, DAH := [i] })
    (hg : env.GetSharesByNamespace i [i] env.namespaceID = .ok [[i]])
    (hp : env.ParseMsgs [[i]] = .ok { MessagesList := [⟨[7], [i]⟩] })
    (hu : env.Unmarshal [i] = .ok { Blocks := [[i]] })
    (hm : env.MultiBlockFromProto { Blocks := [[i]] } = .ok { Blocks := [[i]] }) :
    IterOK env i (steadyBlocks i) := by
  refine ⟨hc, _, _, _, hn, hg, hp, ?_⟩
  refine List.Forall₂.cons ?_ List.Forall₂.nil
  simp [decodeMsg, hu, hm]

theorem decodeMsg_error_iff (env : Env) (msg : Message) (err : GoError) :
    decodeMsg env msg = .error err ↔
      (env.Unmarshal msg.Data = .error err ∨
        ∃ protoMB, env.Unmarshal msg.Data = .ok protoMB ∧
          env.MultiBlockFromProto protoMB = .error err) := by
  unfold decodeMsg
  cases hu : env.Unmarshal msg.Data with
  | error e => simp
  | ok protoMB => simp

theorem rangeMessages_cons (env : Env) (msg : Message) (rest : List Message)
    (st : LoopState) :
    rangeMessages env (msg :: rest) st =
      match decodeMsg env msg with
      | .error err => (st, some err)
      | .ok mb => rangeMessages env rest { st with sent := st.sent ++ [mb] } := by
  rw [rangeMessages]
  unfold decodeMsg
  cases hu : env.Unmarshal msg.Data with
  | error e => rfl
  | ok protoMB =>
    cases hm : env.MultiBlockFromProto protoMB with
    | error e => simp [hm]
    | ok mb => simp [hm]

theorem rangeMessages_error_split (env : Env) (msgs : List Message) (st : LoopState)
    (err : GoError) (h : (rangeMessages env msgs st).2 = some err) :
    ∃ before msg after, msgs = before ++ msg :: after ∧
      (∀ m ∈ before, ∃ mb, decodeMsg env m = .ok mb) ∧
      decodeMsg env msg = .error err := by
  induction msgs generalizing st with
  | nil => simp [rangeMessages] at h
  | cons m rest ih =>
    rw [rangeMessages_cons] at h
    cases hd : decodeMsg env m with
    | error e =>
      simp only [hd, Option.some.injEq] at h
      subst h
      exact ⟨[], m, rest, rfl, by simp, hd⟩
    | ok mb =>
      simp only [hd] at h
      obtain ⟨before, msg, after, hsplit, hbefore, hfail⟩ := ih _ h
      refine ⟨m :: before, msg, after, by simp [hsplit], ?_, hfail⟩
      intro x hx
      rcases List.mem_cons.1 hx with rfl | hx
      · exact ⟨mb, hd⟩
      · exact hbefore x hx

theorem rangeMessages_error_of_split (env : Env) (before : List Message) (msg : Message)
    (after : List Message) (st : LoopState) (err : GoError)
    (hbefore : ∀ m ∈ before, ∃ mb, decodeMsg env m = .ok mb)
    (hfail : decodeMsg env msg = .error err) :
    (rangeMessages env (before ++ msg :: after) st).2 = some err := by
  induction before generalizing st with
  | nil =>
    rw [List.nil_append, rangeMessages_cons]
    simp [hfail]
  | cons b bs ih =>
    obtain ⟨mb, hb⟩ := hbefore b (by simp)
    rw [List.cons_append, rangeMessages_cons]
    simp only [hb]
    exact ih _ (fun m hm => hbefore m (by simp [hm]))

theorem rangeMessages_error_iff (env : Env) (msgs : List Message) (st : LoopState)
    (err : GoError) :
    (rangeMessages env msgs st).2 = some err ↔
      ∃ before msg after, msgs = before ++ msg :: after ∧
        (∀ m ∈ before, ∃ mb, decodeMsg env m = .ok mb) ∧
        (env.Unmarshal msg.Data = .error err ∨
          ∃ protoMB, env.Unmarshal msg.Data = .ok protoMB ∧
            env.MultiBlockFromProto protoMB = .error err) := by
  constructor
  · intro h
    obtain ⟨before, msg, after, h1, h2, h3⟩ := rangeMessages_error_split env msgs st err h
    exact ⟨before, msg, after, h1, h2, (decodeMsg_error_iff env msg err).1 h3⟩
  · rintro ⟨before, msg, after, rfl, h2, h3⟩
    exact rangeMessages_error_of_split env before msg after st err h2
      ((decodeMsg_error_iff env msg err).2 h3)

/-- The loop body stops with err exactly when the first failing call of the
iteration returns err. -/
theorem loopBody_error_iff (env : Env) (i : Nat) (st : LoopState) (err : GoError) :
    (loopBody env i st).2 = some err ↔ FailsAt env i err := by
  unfold loopBody FailsAt
  cases hn : env.NextHeader i with
  | error e => simp
  | ok head =>
    cases hg : env.GetSharesByNamespace i head.DAH env.namespaceID with
    | error e => simp [hg]
    | ok rawShares =>
      cases hp : env.ParseMsgs rawShares with
      | error e => simp [hg, hp]
      | ok msgs =>
        simp only [hg, hp, rangeMessages_error_iff]
        simp [hg, hp]

/-- One more iteration of the loop: the cancellation check, then the body. -/
theorem forLoop_succ (env : Env) (fuel i : Nat) (st : LoopState) :
    forLoop env (fuel + 1) i st =
      if env.ctxDone i then (st, .returned none)
      else
        match loopBody env i st with
        | (st3, some err) => (st3, .returned (some err))
        | (st3, none) => forLoop env fuel (i + 1) st3 := by
  rw [forLoop]
  unfold loopBody
  split
  · rfl
  · simp only
    cases hn : env.NextHeader i with
    | error e => rfl
    | ok head =>
      simp only
      cases hg : env.GetSharesByNamespace i head.DAH env.namespaceID with
      | error e => rfl
      | ok rawShares =>
        simp only
        cases hp : env.ParseMsgs rawShares with
        | error e => rfl
        | ok msgs => rfl

/-- The loop returns err exactly when, after some number j of iterations that
ran to their end, iteration i + j starts with the context live and its first
failing call returns err. -/
theorem forLoop_returned_iff (env : Env) (fuel i : Nat) (st : LoopState) (err : GoError) :
    (forLoop env fuel i st).2 = .returned (some err) ↔
      ∃ j, j < fuel ∧ (forLoop env j i st).2 = .running ∧
        env.ctxDone (i + j) = false ∧ FailsAt env (i + j) err := by
  induction fuel generalizing i st with
  | zero => simp [forLoop]
  | succ fuel ih =>
    rw [forLoop_succ]
    by_cases hc : env.ctxDone i = true
    · simp only [hc, if_true]
      constructor
      · intro h
        simp at h
      · rintro ⟨j, _, hrun, hctx, _⟩
        cases j with
        | zero => simp [hc] at hctx
        | succ j =>
          rw [forLoop_succ] at hrun
          simp [hc] at hrun
    · have hc0 : env.ctxDone i = false := by simpa using hc
      simp only [hc0, Bool.false_eq_true, if_false]
      cases hb : loopBody env i st with
      | mk st3 o =>
        have hfail : ∀ e, o = some e ↔ FailsAt env i e := by
          intro e
          rw [← loopBody_error_iff env i st e, hb]
        cases o with
        | some e =>
          simp only
          constructor
          · intro h
            have he : e = err := by simpa using h
            subst he
            exact ⟨0, Nat.succ_pos _, by simp [forLoop], by simpa using hc0,
              by simpa using (hfail e).1 rfl⟩
          · rintro ⟨j, _, hrun, _, hf⟩
            cases j with
            | zero =>
              have := (hfail err).2 (by simpa using hf)
              simp only [Option.some.injEq] at this
              rw [this]
            | succ j =>
              rw [forLoop_succ] at hrun
              simp [hc0, hb] at hrun
        | none =>
          simp only
          rw [ih (i + 1) st3]
          constructor
          · rintro ⟨j, hj, hrun, hctx, hf⟩
            refine ⟨j + 1, Nat.succ_lt_succ hj, ?_, ?_, ?_⟩
            · rw [forLoop_succ]
              simpa [hc0, hb] using hrun
            · rw [← hctx]
              congr 1
              omega
            · have h1 : i + (j + 1) = i + 1 + j := by omega
              rw [h1]
              exact hf
          · rintro ⟨j, hj, hrun, hctx, hf⟩
            cases j with
            | zero =>
              have := (hfail err).2 (by simpa using hf)
              simp at this
            | succ j =>
              refine ⟨j, Nat.lt_of_succ_lt_succ hj, ?_, ?_, ?_⟩
              · rw [forLoop_succ] at hrun
                simpa [hc0, hb] using hrun
              · rw [← hctx]
                congr 1
                omega
              · have h1 : i + 1 + j = i + (j + 1) := by omega
                rw [h1]
                exact hf

/-! ## Part I: the claims on subscribeBlocks -/

/-- C1: when the share fetch for header k (counting from 0, after k headers
that were processed to the end) fails with err, subscribeBlocks returns err,
has fetched k+1 headers and fetches no more whatever the iteration bound, the
output queue is closed, and the items sent are exactly those decoded from the
k earlier headers: nothing is sent for header k. -/
theorem C1_fetch_failure_closes_without_emitting (env : Env)
    (blocks : Nat → List MultiBlock) (k fuel : Nat) (head : ExtendedHeader) (err : GoError)
    (hsub : env.Subscribe = .ok ())
    (hprev : ∀ i, i < k → IterOK env i (blocks i))
    (hctx : env.ctxDone k = false)
    (hhead : env.NextHeader k = .ok head)
    (hfetch : env.GetSharesByNamespace k head.DAH env.namespaceID = .error err)
    (hfuel : k < fuel) :
    (subscribeBlocks env fuel).status = .returned (some err) ∧
    (subscribeBlocks env fuel).closed = true ∧
    (subscribeBlocks env fuel).nextHeaderCalls = k + 1 ∧
    (subscribeBlocks env fuel).getSharesCalls = k + 1 ∧
    (subscribeBlocks env fuel).sent = expectedStream blocks k := by
  obtain ⟨m, rfl⟩ : ∃ m, fuel = k + (m + 1) := ⟨fuel - k - 1, by omega⟩
  unfold subscribeBlocks
  rw [subscribeBody_after env blocks k (m + 1) hsub hprev, forLoop]
  simp [hctx, hhead, hfetch]

theorem C1_fetch_failure_witness :
    (subscribeBlocks fetchFailEnv 5).status = .returned (some errFetch) ∧
    (subscribeBlocks fetchFailEnv 5).closed = true ∧
    (subscribeBlocks fetchFailEnv 5).nextHeaderCalls = 3 ∧
    (subscribeBlocks fetchFailEnv 5).getSharesCalls = 3 ∧
    (subscribeBlocks fetchFailEnv 5).sent = expectedStream steadyBlocks 2 :=
  C1_fetch_failure_closes_without_emitting fetchFailEnv steadyBlocks 2 5
    { Height := 3, DAH := [2] } errFetch rfl
    (by
      intro i hi
      have h2 : i ≠ 2 := by omega
      exact steadyEnv_iterOK fetchFailEnv i rfl rfl (by simp [fetchFailEnv, steadyEnv, h2])
        rfl rfl rfl)
    rfl rfl rfl (by decide)

/-- C2: when every step succeeds for the first n headers, the items sent while
processing them are exactly the decoded messages of header 0, then of header 1,
and so on, each header in message-list order; a longer run only appends to that
sequence. -/
theorem C2_emission_order (env : Env) (blocks : Nat → List MultiBlock) (n : Nat)
    (hsub : env.Subscribe = .ok ())
    (hok : ∀ i, i < n → IterOK env i (blocks i)) :
    (subscribeBlocks env n).sent = expectedStream blocks n ∧
    (subscribeBlocks env n).status = .running ∧
    (∀ fuel, n ≤ fuel → expectedStream blocks n <+: (subscribeBlocks env fuel).sent) ∧
    (∀ fuel, n < fuel → env.ctxDone n = true →
      (subscribeBlocks env fuel).status = .returned none ∧
      (subscribeBlocks env fuel).sent = expectedStream blocks n) := by
  have h0 := subscribeBody_after env blocks n 0 hsub hok
  refine ⟨?_, ?_, ?_, ?_⟩
  rotate_right
  · intro fuel hfuel hctx
    obtain ⟨m, rfl⟩ : ∃ m, fuel = n + (m + 1) := ⟨fuel - n - 1, by omega⟩
    unfold subscribeBlocks
    rw [subscribeBody_after env blocks n (m + 1) hsub hok, forLoop]
    simp [hctx]
  · unfold subscribeBlocks
    rw [show n = n + 0 from rfl, h0]
    simp [forLoop]
  · unfold subscribeBlocks
    rw [show n = n + 0 from rfl, h0]
    simp [forLoop]
  · intro fuel hfuel
    obtain ⟨m, rfl⟩ : ∃ m, fuel = n + m := ⟨fuel - n, by omega⟩
    unfold subscribeBlocks
    rw [subscribeBody_after env blocks n m hsub hok]
    exact forLoop_sent_extends env m n
      { sent := expectedStream blocks n, nextHeaderCalls := n, getSharesCalls := n }

theorem C2_emission_order_witness :
    (subscribeBlocks cancelEnv 2).sent = expectedStream steadyBlocks 2 ∧
    (subscribeBlocks cancelEnv 2).status = .running ∧
    (∀ fuel, 2 ≤ fuel → expectedStream steadyBlocks 2 <+: (subscribeBlocks cancelEnv fuel).sent) ∧
    (∀ fuel, 2 < fuel → cancelEnv.ctxDone 2 = true →
      (subscribeBlocks cancelEnv fuel).status = .returned none ∧
      (subscribeBlocks cancelEnv fuel).sent = expectedStream steadyBlocks 2) :=
  C2_emission_order cancelEnv steadyBlocks 2 rfl
    (fun i hi => steadyEnv_iterOK cancelEnv i
      (by simp only [cancelEnv, decide_eq_false_iff_not]; omega) rfl rfl rfl rfl rfl)

/-- C8 (as stated, refuted): with the context cancelled from the start and a
failing subscription, subscribeBlocks returns the subscription error, not nil. -/
theorem C8_cancelled_run_returns_error :
    cancelledSubscribeFailEnv.ctxDone 0 = true ∧
    (subscribeBlocks cancelledSubscribeFailEnv 1).status = .returned (some errShared) ∧
    (subscribeBlocks cancelledSubscribeFailEnv 1).status ≠ .returned none :=
  ⟨rfl, rfl, fun h => by cases h⟩

/-- C8 (amended): when the loop reaches iteration n (n iterations done, none
returned) and the cancellation check of iteration n finds the context done,
subscribeBlocks returns nil with the output queue closed; that iteration calls
neither NextHeader nor GetSharesByNamespace (both counts stay at n) and sends
nothing. -/
theorem C8_cancellation_checked_before_fetch (env : Env) (n fuel : Nat)
    (hreach : (subscribeBlocks env n).status = .running)
    (hctx : env.ctxDone n = true)
    (hfuel : n < fuel) :
    (subscribeBlocks env fuel).status = .returned none ∧
    (subscribeBlocks env fuel).closed = true ∧
    (subscribeBlocks env fuel).nextHeaderCalls = n ∧
    (subscribeBlocks env fuel).getSharesCalls = n ∧
    (subscribeBlocks env fuel).sent = (subscribeBlocks env n).sent := by
  obtain ⟨m, rfl⟩ : ∃ m, fuel = n + (m + 1) := ⟨fuel - n - 1, by omega⟩
  unfold subscribeBlocks subscribeBody at hreach ⊢
  cases hsub : env.Subscribe with
  | error err => simp [hsub] at hreach
  | ok u =>
    simp only [hsub] at hreach ⊢
    have hcalls := forLoop_running_calls env n 0 LoopState.init hreach
    rw [forLoop_add env n (m + 1) 0 LoopState.init, if_pos hreach, forLoop]
    simp only [Nat.zero_add, hctx, if_true]
    have hz : LoopState.init.nextHeaderCalls = 0 ∧ LoopState.init.getSharesCalls = 0 :=
      ⟨rfl, rfl⟩
    rw [hz.1, hz.2, Nat.zero_add] at hcalls
    simp [hcalls.1, hcalls.2]

theorem C8_cancellation_witness :
    (subscribeBlocks cancelEnv 4).status = .returned none ∧
    (subscribeBlocks cancelEnv 4).closed = true ∧
    (subscribeBlocks cancelEnv 4).nextHeaderCalls = 2 ∧
    (subscribeBlocks cancelEnv 4).getSharesCalls = 2 ∧
    (subscribeBlocks cancelEnv 4).sent = (subscribeBlocks cancelEnv 2).sent :=
  C8_cancellation_checked_before_fetch cancelEnv 2 4 rfl rfl (by decide)

/-- C9 (as stated, refuted): a message whose payload decodes to a multiblock
with two sub-blocks puts one item on the output queue, not two. -/
theorem C9_two_sub_blocks_one_item :
    decodeMsg pairEnv ⟨[7], [0]⟩ = .ok { Blocks := [[0], [0]] } ∧
    (subscribeBlocks pairEnv 2).status = .returned none ∧
    (subscribeBlocks pairEnv 2).sent = [{ Blocks := [[0], [0]] }] ∧
    (subscribeBlocks pairEnv 2).sent.length ≠ 2 :=
  ⟨rfl, rfl, rfl, by decide⟩

/-- C9 (amended): for a header whose messages all decode, subscribeBlocks sends
one item per message, the decoded multiblock itself with all its sub-blocks
inside, in message-list order; the number of items sent for the header is the
number of its messages. -/
theorem C9_one_item_per_message (env : Env) (blocks : Nat → List MultiBlock) (n : Nat)
    (head : ExtendedHeader) (rawShares : List Share) (msgs : Messages)
    (mbs : List MultiBlock)
    (hsub : env.Subscribe = .ok ())
    (hprev : ∀ i, i < n → IterOK env i (blocks i))
    (hctx : env.ctxDone n = false)
    (hhead : env.NextHeader n = .ok head)
    (hshares : env.GetSharesByNamespace n head.DAH env.namespaceID = .ok rawShares)
    (hparse : env.ParseMsgs rawShares = .ok msgs)
    (hdec : List.Forall₂ (fun msg mb => decodeMsg env msg = .ok mb) msgs.MessagesList mbs) :
    (subscribeBlocks env (n + 1)).sent = (subscribeBlocks env n).sent ++ mbs ∧
    mbs.length = msgs.MessagesList.length := by
  refine ⟨?_, hdec.length_eq.symm⟩
  have h0 := subscribeBody_after env blocks n 0 hsub hprev
  have h1 := subscribeBody_after env blocks n 1 hsub hprev
  unfold subscribeBlocks
  rw [h1]
  rw [show subscribeBody env n = subscribeBody env (n + 0) from rfl, h0, forLoop,
    forLoop.eq_def]
  simp only [hctx, hhead, hshares, hparse, Bool.false_eq_true, if_false]
  rw [rangeMessages_ok env _ _ _ hdec]
  simp [forLoop]

theorem C9_one_item_per_message_witness :
    (subscribeBlocks pairEnv 1).sent = (subscribeBlocks pairEnv 0).sent ++ [{ Blocks := [[0], [0]] }] ∧
    [({ Blocks := [[0], [0]] } : MultiBlock)].length =
      (({ MessagesList := [⟨[7], [0]⟩] } : Messages)).MessagesList.length :=
  C9_one_item_per_message pairEnv steadyBlocks 0 { Height := 1, DAH := [0] } [[0]]
    { MessagesList := [⟨[7], [0]⟩] } [{ Blocks := [[0], [0]] }] rfl
    (fun i hi => absurd hi (Nat.not_lt_zero i)) rfl rfl rfl rfl
    (List.Forall₂.cons rfl List.Forall₂.nil)

/-- C10 (as stated, refuted): a subscription failure, a share-fetch failure, a
message-parse failure and a multiblock-decode failure that carry the same error
value all return that same value; the last three runs are equal in every
observable. -/
theorem C10_stages_not_distinguished :
    subscribeFailEnv.Subscribe = .error errShared ∧
    shareFailEnv.GetSharesByNamespace 0 [0] [7] = .error errShared ∧
    parseFailEnv.ParseMsgs [[0]] = .error errShared ∧
    decodeFailEnv.Unmarshal [0] = .error errShared ∧
    (subscribeBlocks subscribeFailEnv 3).status = .returned (some errShared) ∧
    (subscribeBlocks shareFailEnv 3).status = .returned (some errShared) ∧
    (subscribeBlocks parseFailEnv 3).status = .returned (some errShared) ∧
    (subscribeBlocks decodeFailEnv 3).status = .returned (some errShared) ∧
    subscribeBlocks shareFailEnv 3 = subscribeBlocks parseFailEnv 3 ∧
    subscribeBlocks parseFailEnv 3 = subscribeBlocks decodeFailEnv 3 :=
  ⟨rfl, rfl, rfl, rfl, rfl, rfl, rfl, rfl, rfl, rfl⟩

/-- C10 (amended): a run returns the error err exactly when Subscribe fails
with err, or Subscribe succeeds and, after some number k of iterations that ran
to their end, iteration k starts with the context live and the first of its
calls that fails (NextHeader, GetSharesByNamespace, ParseMsgs, Unmarshal or
MultiBlockFromProto) returns err: the returned error is the error value of the
call that failed, unchanged, and nothing records which call it was. -/
theorem C10_error_returned_unwrapped (env : Env) (fuel : Nat) (err : GoError) :
    (subscribeBlocks env fuel).status = .returned (some err) ↔
      env.Subscribe = .error err ∨
      (env.Subscribe = .ok () ∧
        ∃ k, k < fuel ∧ (subscribeBlocks env k).status = .running ∧
          env.ctxDone k = false ∧ FailsAt env k err) := by
  unfold subscribeBlocks subscribeBody
  cases hsub : env.Subscribe with
  | error e => simp
  | ok u =>
    simp only [forLoop_returned_iff, Nat.zero_add]
    simp

theorem C10_error_returned_unwrapped_witness :
    (parseFailEnv.Subscribe = .error errShared ∨
      (parseFailEnv.Subscribe = .ok () ∧
        ∃ k, k < 3 ∧ (subscribeBlocks parseFailEnv k).status = .running ∧
          parseFailEnv.ctxDone k = false ∧ FailsAt parseFailEnv k errShared)) ∧
    (subscribeBlocks fetchFailEnv 5).status = .returned (some errFetch) :=
  ⟨(C10_error_returned_unwrapped parseFailEnv 3 errShared).1 rfl,
    (C10_error_returned_unwrapped fetchFailEnv 5 errFetch).2
      (Or.inr ⟨rfl, 2, by decide, rfl, rfl, Or.inr ⟨_, rfl, Or.inl rfl⟩⟩)⟩

/-! ## Lemmas on the validator -/

theorem firstViolation_append (xs ys : List (Bool × ValidationError)) :
    firstViolation (xs ++ ys) =
      match firstViolation xs with
      | some err => some err
      | none => firstViolation ys := by
  induction xs with
  | nil => simp [firstViolation]
  | cons c rest ih =>
    obtain ⟨violated, err⟩ := c
    cases violated <;> simp [firstViolation, ih]

theorem firstViolation_eq_none_iff (cs : List (Bool × ValidationError)) :
    firstViolation cs = none ↔ ∀ c ∈ cs, c.1 = false := by
  induction cs with
  | nil => simp [firstViolation]
  | cons c rest ih =>
    obtain ⟨violated, err⟩ := c
    cases violated <;> simp [firstViolation, ih]

/-- The header checks pass exactly when rules 1 to 9 hold. -/
theorem validateHeader_eq_none_iff (hs : Hasher) (state : State) (block : Block) :
    validateHeader hs state block = none ↔
      state.InitialHeight ≤ block.Header.Height ∧
      block.Header.Height = state.LastBlockHeight + 1 ∧
      block.Header.Version = state.Version ∧
      block.Header.ChainID = state.ChainID ∧
      state.LastBlockTime ≤ block.Header.Time ∧
      block.Header.LastBlockID = state.LastBlockID ∧
      block.Header.LastCommitHash = hs.commitHash block.LastCommit ∧
      block.Header.ValidatorsHash = hs.validatorsHash state.Validators ∧
      block.Header.NextValidatorsHash = hs.validatorsHash state.NextValidators ∧
      block.Header.ConsensusHash = state.ConsensusHash ∧
      block.Header.AppHash = state.AppHash ∧
      block.Header.LastResultsHash = state.LastResultsHash ∧
      block.Header.EvidenceHash = hs.evidenceHash block.Evidence ∧
      block.Header.ProposerAddress.length = AddressSize ∧
      state.Validators.GetProposer.map (fun v => v.Address) =
        some block.Header.ProposerAddress := by
  rw [validateHeader, firstViolation_eq_none_iff]
  simp only [headerChecks, List.forall_mem_cons, List.not_mem_nil, false_implies,
    implies_true, and_true, decide_eq_false_iff_not, not_lt, ne_eq, not_not]

theorem ValidateBlock_eq (hs : Hasher) (state : State) (block : Block) :
    ValidateBlock hs state block =
      match validateHeader hs state block with
      | some err => some err
      | none => firstViolation (commitChecks state block) := by
  rw [ValidateBlock, firstViolation_append, validateHeader]

theorem validateHeader_of_ValidateBlock (hs : Hasher) (state : State) (block : Block)
    (h : ValidateBlock hs state block = none) : validateHeader hs state block = none := by
  rw [ValidateBlock_eq] at h
  cases hv : validateHeader hs state block with
  | none => rfl
  | some err => simp [hv] at h

/-- A block passes exactly when rules 1 to 9 hold and, above height 1, the last
commit has the height and round of the preceding block and one signature per
validator of the last set. -/
theorem ValidateBlock_eq_none_iff (hs : Hasher) (state : State) (block : Block) :
    ValidateBlock hs state block = none ↔
      validateHeader hs state block = none ∧
      (block.Header.Height ≠ 1 →
        block.LastCommit.Height = block.Header.Height - 1 ∧
        block.LastCommit.Round = state.LastBlockRound ∧
        block.LastCommit.Signatures.length = state.LastValidators.Size) := by
  rw [ValidateBlock_eq]
  cases hv : validateHeader hs state block with
  | some err => simp
  | none =>
    simp only [true_and]
    rw [firstViolation_eq_none_iff, commitChecks]
    by_cases h1 : block.Header.Height = 1
    · simp [h1]
    · simp only [h1, if_false, List.forall_mem_cons, List.not_mem_nil, false_implies,
        implies_true, and_true, decide_eq_false_iff_not, ne_eq, not_or, not_not,
        not_false_eq_true, true_implies]
      tauto

theorem expectedProposer_of_map (state : State) (a : Bytes)
    (h : state.Validators.GetProposer.map (fun v => v.Address) = some a) :
    expectedProposer state = a := by
  unfold expectedProposer
  cases hp : state.Validators.GetProposer with
  | none => simp [hp] at h
  | some v => simpa [hp] using h

theorem expectedProposer_wellFormed (state : State) (h : state.Validators.WellFormed) :
    (expectedProposer state).length = AddressSize ∧
    state.Validators.GetProposer.map (fun v => v.Address) = some (expectedProposer state) := by
  obtain ⟨v, hv, hlen⟩ := h
  simp [expectedProposer, hv, hlen]

theorem validateHeader_MakeBlock (hs : Hasher) (state : State) (data evidence : List Bytes)
    (lastCommit : Commit)
    (hinit : state.InitialHeight ≤ state.LastBlockHeight + 1)
    (hwf : state.Validators.WellFormed) :
    validateHeader hs state
      (MakeBlock hs state (state.LastBlockHeight + 1) data evidence lastCommit
        (expectedProposer state)) = none := by
  obtain ⟨hlen, hprop⟩ := expectedProposer_wellFormed state hwf
  rw [validateHeader_eq_none_iff]
  exact ⟨hinit, rfl, rfl, rfl, le_refl _, rfl, rfl, rfl, rfl, rfl, rfl, rfl, rfl, hlen, hprop⟩

/-- A good block built on a state that satisfies the chain invariant passes
validation; the step yields the next state and the commit of the block. -/
theorem makeAndCommitGoodBlock_ok (hs : Hasher) (state : State) (lastCommit : Commit)
    (input : GoodBlockInput) (hinv : ChainInv state lastCommit) :
    makeAndCommitGoodBlock hs state lastCommit input =
      (none,
        updateState state
          (hs.blockID (MakeBlock hs state (state.LastBlockHeight + 1) input.data [] lastCommit
            (expectedProposer state)))
          (MakeBlock hs state (state.LastBlockHeight + 1) input.data [] lastCommit
            (expectedProposer state)) input.response,
        makeValidCommit hs (state.LastBlockHeight + 1) input.response.Round
          (hs.blockID (MakeBlock hs state (state.LastBlockHeight + 1) input.data [] lastCommit
            (expectedProposer state)))
          state.Validators state.LastBlockTime) := by
  obtain ⟨hinit, hvals, _, hcommit⟩ := hinv
  have hvalid : ValidateBlock hs state
      (MakeBlock hs state (state.LastBlockHeight + 1) input.data [] lastCommit
        (expectedProposer state)) = none := by
    rw [ValidateBlock_eq_none_iff]
    refine ⟨validateHeader_MakeBlock hs state _ _ _ hinit hvals, ?_⟩
    intro h1
    have h0 : state.LastBlockHeight ≠ 0 := by
      intro hz
      apply h1
      simp [MakeBlock, hz]
    obtain ⟨c1, c2, c3⟩ := hcommit h0
    refine ⟨?_, c2, c3⟩
    simp [MakeBlock, c1]
  simp only [makeAndCommitGoodBlock, ApplyBlock, hvalid]
  rfl

theorem ChainInv_step (hs : Hasher) (state : State) (lastCommit : Commit)
    (input : GoodBlockInput) (hinv : ChainInv state lastCommit)
    (hwf : input.response.NextValidators.WellFormed) :
    ChainInv (makeAndCommitGoodBlock hs state lastCommit input).2.1
      (makeAndCommitGoodBlock hs state lastCommit input).2.2 ∧
    (makeAndCommitGoodBlock hs state lastCommit input).2.1.LastBlockHeight =
      state.LastBlockHeight + 1 := by
  rw [makeAndCommitGoodBlock_ok hs state lastCommit input hinv]
  obtain ⟨hinit, _, hnext, _⟩ := hinv
  refine ⟨⟨?_, hnext, hwf, ?_⟩, rfl⟩
  · simp only [updateState, MakeBlock]
    omega
  · intro _
    simp [updateState, MakeBlock, makeValidCommit, NewCommit, ValidatorSet.Size]

theorem goodChain_ok (hs : Hasher) (state : State) (lastCommit : Commit)
    (inputs : List GoodBlockInput) (hinv : ChainInv state lastCommit)
    (hin : ∀ input ∈ inputs, input.response.NextValidators.WellFormed) :
    (goodChain hs state lastCommit inputs).map (fun r => r.1) =
      List.replicate inputs.length none ∧
    (goodChain hs state lastCommit inputs).map (fun r => r.2.LastBlockHeight) =
      heightsFrom state.LastBlockHeight inputs.length := by
  induction inputs generalizing state lastCommit with
  | nil => simp [goodChain, heightsFrom]
  | cons input rest ih =>
    have hwf := hin input (by simp)
    obtain ⟨hinv1, hh⟩ := ChainInv_step hs state lastCommit input hinv hwf
    have hok := makeAndCommitGoodBlock_ok hs state lastCommit input hinv
    rw [hok] at hinv1 hh
    obtain ⟨ih1, ih2⟩ := ih _ _ hinv1 (fun i hi => hin i (by simp [hi]))
    simp only [goodChain, hok, List.map_cons, List.length_cons, List.replicate_succ,
      heightsFrom]
    rw [ih1, ih2, hh]
    simp only at hh
    simp [hh]

/-! ## Part II: the claims on ValidateBlock -/

/-- C3: for every state and the block the state builds for the next height
with the expected proposer, overwriting exactly one header field with a
different value makes ValidateBlock return an error, for each of Version.Block,
Version.App, ChainID, Height, Time (moved earlier), LastBlockID, LastCommitHash,
ValidatorsHash, NextValidatorsHash, ConsensusHash, AppHash, LastResultsHash,
EvidenceHash and ProposerAddress (another address, of the right or of a wrong
length). -/
theorem C3_malleated_header_rejected (hs : Hasher) (state : State) (data evidence : List Bytes)
    (lastCommit : Commit) (m : Malleation)
    (hch : m.Changes (MakeBlock hs state (state.LastBlockHeight + 1) data evidence lastCommit
      (expectedProposer state))) :
    ValidateBlock hs state
      (m.malleateBlock (MakeBlock hs state (state.LastBlockHeight + 1) data evidence lastCommit
        (expectedProposer state))) ≠ none := by
  intro h
  have hv := validateHeader_of_ValidateBlock hs state _ h
  rw [validateHeader_eq_none_iff] at hv
  obtain ⟨_, h2, h3, h4, h5, h6, h7, h8, h9, h10, h11, h12, h13, _, h15⟩ := hv
  cases m with
  | VersionBlock v => exact hch (congrArg Consensus.Block h3)
  | VersionApp v => exact hch (congrArg Consensus.App h3)
  | ChainID c => exact hch h4
  | Height height => exact hch h2
  | Time t =>
    have hlt : t < state.LastBlockTime := hch
    have hle : state.LastBlockTime ≤ t := h5
    omega
  | LastBlockID id => exact hch h6
  | LastCommitHash x => exact hch h7
  | ValidatorsHash x => exact hch h8
  | NextValidatorsHash x => exact hch h9
  | ConsensusHash x => exact hch h10
  | AppHash x => exact hch h11
  | LastResultsHash x => exact hch h12
  | EvidenceHash x => exact hch h13
  | ProposerAddress a => exact hch (expectedProposer_of_map state a h15).symm

theorem C3_malleated_header_witness :
    ValidateBlock sampleHasher stateThree.1
      (MakeBlock sampleHasher stateThree.1 (stateThree.1.LastBlockHeight + 1) [[2]] []
        stateThree.2 (expectedProposer stateThree.1)) = none ∧
    ValidateBlock sampleHasher stateThree.1
      ((Malleation.Time (stateThree.1.LastBlockTime - 1)).malleateBlock
        (MakeBlock sampleHasher stateThree.1 (stateThree.1.LastBlockHeight + 1) [[2]] []
          stateThree.2 (expectedProposer stateThree.1))) ≠ none ∧
    ValidateBlock sampleHasher stateThree.1
      ((Malleation.ProposerAddress [119, 114, 111, 110, 103]).malleateBlock
        (MakeBlock sampleHasher stateThree.1 (stateThree.1.LastBlockHeight + 1) [[2]] []
          stateThree.2 (expectedProposer stateThree.1))) ≠ none :=
  ⟨by decide,
    C3_malleated_header_rejected sampleHasher stateThree.1 [[2]] [] stateThree.2
      (Malleation.Time (stateThree.1.LastBlockTime - 1))
      (by
        show stateThree.1.LastBlockTime - 1 < stateThree.1.LastBlockTime
        omega),
    C3_malleated_header_rejected sampleHasher stateThree.1 [[2]] [] stateThree.2
      (Malleation.ProposerAddress [119, 114, 111, 110, 103])
      (by
        show [119, 114, 111, 110, 103] ≠ expectedProposer stateThree.1
        decide)⟩

/-- C4: starting from the state before the first block, every good block
(built from the current state for the next height, with the expected proposer
and the commit of the previous block) passes ValidateBlock, for every number of
heights; the heights of the states are 1, 2, ..., N; and any block that passes
ValidateBlock advances LastBlockHeight by exactly 1 when applied. -/
theorem C4_good_chain_accepted (hs : Hasher) (state : State) (lastCommit : Commit)
    (inputs : List GoodBlockInput) (hgen : IsGenesis state)
    (hin : ∀ input ∈ inputs, input.response.NextValidators.WellFormed) :
    (goodChain hs state lastCommit inputs).map (fun r => r.1) =
      List.replicate inputs.length none ∧
    (goodChain hs state lastCommit inputs).map (fun r => r.2.LastBlockHeight) =
      heightsFrom 0 inputs.length ∧
    ∀ (st : State) (block : Block) (resp : Response), ValidateBlock hs st block = none →
      (ApplyBlock hs st block resp).2 = none ∧
      (ApplyBlock hs st block resp).1.LastBlockHeight = st.LastBlockHeight + 1 := by
  obtain ⟨h0, h1, hv, hn⟩ := hgen
  have hinv : ChainInv state lastCommit :=
    ⟨by omega, hv, hn, fun hne => absurd h0 hne⟩
  obtain ⟨r1, r2⟩ := goodChain_ok hs state lastCommit inputs hinv hin
  refine ⟨r1, by rw [r2, h0], ?_⟩
  intro st block resp hvalid
  have hh := ((validateHeader_eq_none_iff hs st block).1
    (validateHeader_of_ValidateBlock hs st block hvalid)).2.1
  simp [ApplyBlock, hvalid, updateState, hh]

theorem C4_good_chain_witness :
    (goodChain sampleHasher (makeState threeValidators) firstCommit
      (List.replicate 9 (sampleInput threeValidators))).map (fun r => r.1) =
      List.replicate (List.replicate 9 (sampleInput threeValidators)).length none ∧
    (goodChain sampleHasher (makeState threeValidators) firstCommit
      (List.replicate 9 (sampleInput threeValidators))).map (fun r => r.2.LastBlockHeight) =
      heightsFrom 0 (List.replicate 9 (sampleInput threeValidators)).length ∧
    ∀ (st : State) (block : Block) (resp : Response),
      ValidateBlock sampleHasher st block = none →
      (ApplyBlock sampleHasher st block resp).2 = none ∧
      (ApplyBlock sampleHasher st block resp).1.LastBlockHeight = st.LastBlockHeight + 1 :=
  C4_good_chain_accepted sampleHasher (makeState threeValidators) firstCommit
    (List.replicate 9 (sampleInput threeValidators))
    ⟨rfl, rfl, ⟨_, rfl, rfl⟩, ⟨_, rfl, rfl⟩⟩
    (fun input hmem => by
      rw [List.eq_of_mem_replicate hmem]
      exact ⟨_, rfl, rfl⟩)

/-- A block above height 1 that passes rules 1 to 9 and whose last commit has
a height or round other than that of the preceding block gets
ErrInvalidCommitHeight. -/
theorem commitHeight_error_of_header_ok (hs : Hasher) (state : State) (block : Block)
    (hhdr : validateHeader hs state block = none)
    (hheight : block.Header.Height ≠ 1)
    (hwrong : block.LastCommit.Height ≠ state.LastBlockHeight ∨
      block.LastCommit.Round ≠ state.LastBlockRound) :
    ValidateBlock hs state block =
      some (.ErrInvalidCommitHeight state.LastBlockHeight block.LastCommit.Height) := by
  have hh := ((validateHeader_eq_none_iff hs state block).1 hhdr).2.1
  have hsub : block.Header.Height - 1 = state.LastBlockHeight := by omega
  rw [ValidateBlock_eq, hhdr]
  simp only [commitChecks, hheight, if_false, firstViolation, hsub]
  rw [if_pos (by simpa using hwrong)]

/-- A block above height 1 that passes rules 1 to 9 and whose last commit has
the height and round of the preceding block and a wrong number of signatures
gets ErrInvalidCommitSignatures. -/
theorem commitSignatures_error_of_header_ok (hs : Hasher) (state : State) (block : Block)
    (hhdr : validateHeader hs state block = none)
    (hheight : block.Header.Height ≠ 1)
    (hh : block.LastCommit.Height = state.LastBlockHeight)
    (hr : block.LastCommit.Round = state.LastBlockRound)
    (hsigs : block.LastCommit.Signatures.length ≠ state.LastValidators.Size) :
    ValidateBlock hs state block =
      some (.ErrInvalidCommitSignatures state.LastValidators.Size
        block.LastCommit.Signatures.length) := by
  have h2 := ((validateHeader_eq_none_iff hs state block).1 hhdr).2.1
  have hsub : block.Header.Height - 1 = state.LastBlockHeight := by omega
  rw [ValidateBlock_eq, hhdr]
  simp only [commitChecks, hheight, if_false, firstViolation, hsub]
  rw [if_neg (by simp [hh, hr]), if_pos (by simpa using hsigs)]

/-- C5: for every state at height h-1 with h > 1 (its initial height not ahead
of h and its proposer slot holding a well-formed address, as in every state a
good chain reaches) and the block the state builds for height h from a last
commit whose height or round is not that of the immediately preceding block,
ValidateBlock returns ErrInvalidCommitHeight: never nil and never another
error, whatever the signatures of the commit. -/
theorem C5_wrong_commit_height (hs : Hasher) (state : State) (data evidence : List Bytes)
    (wrongCommit : Commit)
    (hheight : 0 < state.LastBlockHeight)
    (hinit : state.InitialHeight ≤ state.LastBlockHeight + 1)
    (hwf : state.Validators.WellFormed)
    (hwrong : wrongCommit.Height ≠ state.LastBlockHeight ∨
      wrongCommit.Round ≠ state.LastBlockRound) :
    ValidateBlock hs state
      (MakeBlock hs state (state.LastBlockHeight + 1) data evidence wrongCommit
        (expectedProposer state)) =
      some (.ErrInvalidCommitHeight state.LastBlockHeight wrongCommit.Height) :=
  commitHeight_error_of_header_ok hs state _
    (validateHeader_MakeBlock hs state data evidence wrongCommit hinit hwf)
    (by
      show state.LastBlockHeight + 1 ≠ 1
      omega)
    hwrong

theorem C5_wrong_commit_height_witness :
    stateOne.1.LastBlockHeight = 1 ∧
    wrongHeightCommit.Height = 2 ∧
    ValidateBlock sampleHasher stateOne.1
      (MakeBlock sampleHasher stateOne.1 (stateOne.1.LastBlockHeight + 1) [[2]] []
        wrongHeightCommit (expectedProposer stateOne.1)) =
      some (.ErrInvalidCommitHeight stateOne.1.LastBlockHeight wrongHeightCommit.Height) :=
  ⟨by decide, by decide,
    C5_wrong_commit_height sampleHasher stateOne.1 [[2]] [] wrongHeightCommit
      (by decide) (by decide) ⟨_, rfl, rfl⟩ (Or.inl (by decide))⟩

/-- C6: for every state at height h-1 with h > 1 (its initial height not ahead
of h and its proposer slot holding a well-formed address, as in every state a
good chain reaches) and the block the state builds for height h from a last
commit that has the height and round of the immediately preceding block and a
number of signatures different from state.LastValidators.Size(), ValidateBlock
returns ErrInvalidCommitSignatures. -/
theorem C6_wrong_signature_count (hs : Hasher) (state : State) (data evidence : List Bytes)
    (wrongSigsCommit : Commit)
    (hheight : 0 < state.LastBlockHeight)
    (hinit : state.InitialHeight ≤ state.LastBlockHeight + 1)
    (hwf : state.Validators.WellFormed)
    (hh : wrongSigsCommit.Height = state.LastBlockHeight)
    (hr : wrongSigsCommit.Round = state.LastBlockRound)
    (hsigs : wrongSigsCommit.Signatures.length ≠ state.LastValidators.Size) :
    ValidateBlock hs state
      (MakeBlock hs state (state.LastBlockHeight + 1) data evidence wrongSigsCommit
        (expectedProposer state)) =
      some (.ErrInvalidCommitSignatures state.LastValidators.Size
        wrongSigsCommit.Signatures.length) :=
  commitSignatures_error_of_header_ok hs state _
    (validateHeader_MakeBlock hs state data evidence wrongSigsCommit hinit hwf)
    (by
      show state.LastBlockHeight + 1 ≠ 1
      omega)
    hh hr hsigs

theorem C6_wrong_signature_count_witness :
    stateOne.1.LastValidators.Size = 1 ∧
    wrongSigsCommit.Signatures.length = 2 ∧
    ValidateBlock sampleHasher stateOne.1
      (MakeBlock sampleHasher stateOne.1 (stateOne.1.LastBlockHeight + 1) [[2]] []
        wrongSigsCommit (expectedProposer stateOne.1)) =
      some (.ErrInvalidCommitSignatures stateOne.1.LastValidators.Size
        wrongSigsCommit.Signatures.length) :=
  ⟨by decide, by decide,
    C6_wrong_signature_count sampleHasher stateOne.1 [[2]] [] wrongSigsCommit
      (by decide) (by decide) ⟨_, rfl, rfl⟩ (by decide) (by decide) (by decide)⟩

theorem contains_lower_than_initial (height initial : Int) :
    Contains (ValidationError.HeightBelowInitial height initial).Error
      "lower than initial height" := by
  refine ⟨("block height " ++ toString height ++ " ").toList,
    (" " ++ toString initial).toList, ?_⟩
  simp only [ValidationError.Error, String.toList, String.data_append, List.append_assoc]
  rfl

/-- C7: for every state and every block whose height is below
state.InitialHeight, ValidateBlock returns the error of the initial-height
check, whose text contains "lower than initial height", whether or not the
height also differs from LastBlockHeight + 1; applying such a block reports the
same error and leaves the state as it was. -/
theorem C7_below_initial_height (hs : Hasher) (state : State) (block : Block)
    (resp : Response) (h : block.Header.Height < state.InitialHeight) :
    ValidateBlock hs state block =
      some (.HeightBelowInitial block.Header.Height state.InitialHeight) ∧
    (∃ err, ValidateBlock hs state block = some err ∧
      Contains err.Error "lower than initial height") ∧
    ApplyBlock hs state block resp =
      (state, some (.HeightBelowInitial block.Header.Height state.InitialHeight)) := by
  have hv : ValidateBlock hs state block =
      some (.HeightBelowInitial block.Header.Height state.InitialHeight) := by
    simp [ValidateBlock, headerChecks, firstViolation, h]
  refine ⟨hv, ⟨_, hv, contains_lower_than_initial _ _⟩, ?_⟩
  simp [ApplyBlock, hv]

theorem C7_below_initial_height_witness :
    (ValidateBlock sampleHasher stateAhead blockTen =
      some (.HeightBelowInitial blockTen.Header.Height stateAhead.InitialHeight) ∧
    (∃ err, ValidateBlock sampleHasher stateAhead blockTen = some err ∧
      Contains err.Error "lower than initial height") ∧
    ApplyBlock sampleHasher stateAhead blockTen (sampleInput threeValidators).response =
      (stateAhead,
        some (.HeightBelowInitial blockTen.Header.Height stateAhead.InitialHeight))) ∧
    stateAhead.LastBlockHeight + 1 = blockTen.Header.Height :=
  ⟨C7_below_initial_height sampleHasher stateAhead blockTen
    (sampleInput threeValidators).response (by decide), by decide⟩

end Execute
